import Mathlib

/-!
Verification of the Employee Attendance System backend
(`server/routes.ts` and `server/storage.ts`).

The development shallowly embeds the attendance logic:

* times-of-day are triples of numerals (the code keeps `HH:MM:SS` strings
  and destructures hours/minutes via `split(":").map(Number)`);
* dates, ids, statuses and the other textual values are `String`s, compared
  with an explicit code-point-lexicographic boolean comparator `strLe`
  mirroring JavaScript string comparison (dates are ASCII `YYYY-MM-DD`,
  for which code-unit, code-point and byte order all agree);
* the `Map<string, Attendance>`-backed in-memory store is a list of
  records in insertion order, with `Map.set` semantics (`mapSet`),
  since JavaScript `Map` preserves insertion order and `set` on an
  existing key replaces in place;
* `totalHours`, produced by `toFixed(2)` in the code, is an integer number
  of hundredths of an hour;
* the stable JavaScript `Array.prototype.sort` is modelled by
  `List.insertionSort` (also stable; with a consistent comparator the
  stable-sorted result is uniquely determined, so any stable sort is a
  faithful model).
-/

namespace EAS

/-! ### JavaScript string comparison

JavaScript `<`, `<=`, `>=` on strings and `localeCompare` on canonical
`YYYY-MM-DD` / `HH:MM:SS` ASCII data are plain lexicographic comparison of
code units. -/

/-- Lexicographic `≤` on lists of characters, by code point. -/
def lexLe : List Char → List Char → Bool
  | [], _ => true
  | _ :: _, [] => false
  | a :: as, b :: bs =>
    if a.toNat < b.toNat then true
    else if b.toNat < a.toNat then false
    else lexLe as bs

/-- JavaScript `s <= t` on strings (code-point lexicographic order). -/
def strLe (s t : String) : Bool := lexLe s.data t.data

/-- JavaScript `s < t` on strings. -/
def strLt (s t : String) : Bool := !(strLe t s)

theorem lexLe_refl (s : List Char) : lexLe s s = true := by
  induction s with
  | nil => rfl
  | cons a as ih => simp [lexLe, ih]

theorem lexLe_total (s t : List Char) : lexLe s t = true ∨ lexLe t s = true := by
  induction s generalizing t with
  | nil => exact Or.inl rfl
  | cons a as ih =>
    cases t with
    | nil => exact Or.inr rfl
    | cons b bs =>
      rcases Nat.lt_trichotomy a.toNat b.toNat with h | h | h
      · exact Or.inl (by simp [lexLe, h])
      · rcases ih bs with h' | h'
        · exact Or.inl (by simp [lexLe, h, h'])
        · exact Or.inr (by simp [lexLe, h, h'])
      · exact Or.inr (by simp [lexLe, h])

theorem lexLe_trans {s t u : List Char} (h₁ : lexLe s t = true)
    (h₂ : lexLe t u = true) : lexLe s u = true := by
  induction s generalizing t u with
  | nil => rfl
  | cons a as ih =>
    cases t with
    | nil => simp [lexLe] at h₁
    | cons b bs =>
      cases u with
      | nil => simp [lexLe] at h₂
      | cons c cs =>
        simp only [lexLe] at h₁ h₂ ⊢
        by_cases hab : a.toNat < b.toNat <;> by_cases hba : b.toNat < a.toNat <;>
          by_cases hbc : b.toNat < c.toNat <;> by_cases hcb : c.toNat < b.toNat <;>
          simp_all <;>
          first
            | omega
            | (have hac : a.toNat < c.toNat := by omega
               simp [hac])
            | (have hac : a.toNat = c.toNat := by omega
               simp [hac, Nat.lt_irrefl]
               exact ih h₁ h₂)

theorem lexLe_antisymm {s t : List Char} (h₁ : lexLe s t = true)
    (h₂ : lexLe t s = true) : s = t := by
  induction s generalizing t with
  | nil =>
    cases t with
    | nil => rfl
    | cons b bs => simp [lexLe] at h₂
  | cons a as ih =>
    cases t with
    | nil => simp [lexLe] at h₁
    | cons b bs =>
      simp only [lexLe] at h₁ h₂
      rcases Nat.lt_trichotomy a.toNat b.toNat with hab | hab | hab
      · simp [hab, Nat.lt_asymm hab] at h₂
      · have ha : a = b := Char.eq_of_val_eq (UInt32.ext hab)
        subst ha
        simp [Nat.lt_irrefl] at h₁ h₂
        exact congrArg (a :: ·) (ih h₁ h₂)
      · simp [hab, Nat.lt_asymm hab] at h₁

theorem strLe_refl (s : String) : strLe s s = true := lexLe_refl s.data

theorem strLe_total (s t : String) : strLe s t = true ∨ strLe t s = true :=
  lexLe_total s.data t.data

theorem strLe_trans {s t u : String} (h₁ : strLe s t = true)
    (h₂ : strLe t u = true) : strLe s u = true := lexLe_trans h₁ h₂

theorem strLe_antisymm {s t : String} (h₁ : strLe s t = true)
    (h₂ : strLe t s = true) : s = t :=
  String.ext (lexLe_antisymm h₁ h₂)

theorem strLt_iff_not_le {s t : String} : strLt s t = true ↔ ¬ strLe t s = true := by
  simp [strLt]

/-! ### Times of day and the status classifier (`server/routes.ts`) -/

/-- A time-of-day as carried by an `HH:MM:SS` string.  The code recovers the
numeric fields with `checkInTime.split(":").map(Number)`. -/
structure Time where
  hours : Nat
  minutes : Nat
  seconds : Nat
deriving DecidableEq

/-- `hours * 60 + minutes`, the `checkInMinutes` quantity of the code
(seconds are never consulted by `calculateStatus`/`calculateTotalHours`). -/
def Time.toMin (t : Time) : Nat := t.hours * 60 + t.minutes

/-- `calculateStatus` from `server/routes.ts`:
`checkInMinutes <= 9*60+30 → "present"`, `<= 12*60 → "late"`,
otherwise `"half-day"`. -/
def calculateStatus (t : Time) : String :=
  if t.toMin ≤ 9 * 60 + 30 then "present"
  else if t.toMin ≤ 12 * 60 then "late"
  else "half-day"

/-- `diffMinutes = outTotalMinutes - inTotalMinutes` from
`calculateTotalHours` in `server/routes.ts`. -/
def diffMinutes (tin tout : Time) : Int :=
  (tout.toMin : Int) - (tin.toMin : Int)

/-- `calculateTotalHours` from `server/routes.ts` returns
`(diffMinutes / 60).toFixed(2)`; we represent that decimal string by its
integer number of hundredths of an hour.  `toFixed(2)` rounds the number to
the nearest hundredth: on this domain the exact value `diffMinutes*100/60 =
(10*diffMinutes+3-3)/6` is never a rounding tie (its distance to any
half-integer multiple of 1/100 is at least 1/600), and the double-precision
intermediate is far too accurate for double rounding to intervene, so the
result is exactly the nearest integer ⌊(10*diffMinutes+3)/6⌋, written with
floor division. -/
def calculateTotalHours (tin tout : Time) : Int :=
  (10 * diffMinutes tin tout + 3).fdiv 6

/-- The checkout status reconciliation inlined in `POST
/api/attendance/checkout` (`server/routes.ts`): `parseFloat(totalHours) < 4`
overrides the status to `"half-day"`, else the stored status is kept.
`totalHours` always carries exactly two decimals, so the test
`parseFloat(totalHours) < 4` is exactly `hundredths < 400`. -/
def reconcileStatus (status : String) (hundredths : Int) : String :=
  if hundredths < 400 then "half-day" else status

/-- The hundredths-of-an-hour value produced by the embedded
`calculateTotalHours` is exactly the nearest integer to the mathematically
exact `diffMinutes / 60 * 100`, i.e. `toFixed(2)` rounds (it does not
truncate). -/
theorem calculateTotalHours_eq_round (tin tout : Time) :
    calculateTotalHours tin tout =
      round ((diffMinutes tin tout : ℚ) / 60 * 100) := by
  have h : ((diffMinutes tin tout : ℚ)) / 60 * 100 + 1 / 2 =
      ((10 * diffMinutes tin tout + 3 : ℤ) : ℚ) / ((6 : ℕ) : ℚ) := by
    push_cast
    ring
  rw [round_eq, h, Rat.floor_intCast_div_natCast,
    calculateTotalHours, Int.fdiv_eq_ediv _ (by norm_num)]
  norm_num

/-- Modelled from the spec: the spec claims the duration is *truncated* to
two decimal digits, `floor(hours*100)/100`; this is that truncation,
expressed in hundredths of an hour, for comparison against the code's
`calculateTotalHours`. -/
def truncatedHundredths (tin tout : Time) : Int :=
  ⌊(diffMinutes tin tout : ℚ) / 60 * 100⌋

/-- C1: `calculateStatus` classifies by minutes-since-midnight:
`≤ 570 → "present"`, `570 < · ≤ 720 → "late"`, `720 < · → "half-day"`;
the boundary inputs `09:30:00` and `12:00:00` classify as `"present"` and
`"late"`. -/
theorem calculateStatus_spec (t : Time) :
    (t.toMin ≤ 570 → calculateStatus t = "present") ∧
    (570 < t.toMin → t.toMin ≤ 720 → calculateStatus t = "late") ∧
    (720 < t.toMin → calculateStatus t = "half-day") ∧
    calculateStatus ⟨9, 30, 0⟩ = "present" ∧
    calculateStatus ⟨12, 0, 0⟩ = "late" := by
  refine ⟨fun h => ?_, fun h h' => ?_, fun h => ?_, by decide, by decide⟩
  · simp [calculateStatus, h]
  · simp only [calculateStatus]
    rw [if_neg (by omega), if_pos (by omega)]
  · simp only [calculateStatus]
    rw [if_neg (by omega), if_neg (by omega)]

theorem calculateStatus_spec_witness :
    calculateStatus ⟨8, 59, 59⟩ = "present" ∧
    calculateStatus ⟨10, 15, 0⟩ = "late" ∧
    calculateStatus ⟨12, 1, 0⟩ = "half-day" :=
  ⟨(calculateStatus_spec ⟨8, 59, 59⟩).1 (by decide),
   (calculateStatus_spec ⟨10, 15, 0⟩).2.1 (by decide) (by decide),
   (calculateStatus_spec ⟨12, 1, 0⟩).2.2.1 (by decide)⟩

/-- C2 counterexample: on the 1-minute interval 09:00:00 → 09:01:00 the
code's `calculateTotalHours` (that is, `toFixed(2)`) yields 0.02 hours,
while the claimed truncation `floor(hours*100)/100` yields 0.01: the claim
that the duration is truncated — and in particular that a 1-minute interval
yields 0.01 — is false of the code. -/
theorem calculateTotalHours_truncation_counterexample :
    calculateTotalHours ⟨9, 0, 0⟩ ⟨9, 1, 0⟩ = 2 ∧
    truncatedHundredths ⟨9, 0, 0⟩ ⟨9, 1, 0⟩ = 1 ∧
    calculateTotalHours ⟨9, 0, 0⟩ ⟨9, 1, 0⟩ ≠
      truncatedHundredths ⟨9, 0, 0⟩ ⟨9, 1, 0⟩ := by
  have h2 : calculateTotalHours ⟨9, 0, 0⟩ ⟨9, 1, 0⟩ = 2 := by decide
  have h1 : truncatedHundredths ⟨9, 0, 0⟩ ⟨9, 1, 0⟩ = 1 := by
    have : (diffMinutes ⟨9, 0, 0⟩ ⟨9, 1, 0⟩ : ℚ) / 60 * 100 = 5 / 3 := by
      norm_num [diffMinutes, Time.toMin]
    unfold truncatedHundredths
    rw [this]
    norm_num [Int.floor_eq_iff]
  exact ⟨h2, h1, by rw [h2, h1]; decide⟩

/-- C2 (amended): `calculateTotalHours` returns the checkout-minus-checkin
difference in minutes divided by 60, *rounded to the nearest* hundredth of
an hour (`toFixed(2)` rounds; rounding ties cannot occur on this domain),
so a 1-minute interval yields 0.02 hours; `deriveDuration("09:00:00",
"17:30:00") = 8.50`; negative differences are not guarded and yield a
negative result. -/
theorem calculateTotalHours_spec (tin tout : Time) :
    calculateTotalHours tin tout =
      round ((diffMinutes tin tout : ℚ) / 60 * 100) ∧
    calculateTotalHours ⟨9, 0, 0⟩ ⟨9, 1, 0⟩ = 2 ∧
    calculateTotalHours ⟨9, 0, 0⟩ ⟨17, 30, 0⟩ = 850 ∧
    (diffMinutes tin tout < 0 → calculateTotalHours tin tout < 0) := by
  refine ⟨calculateTotalHours_eq_round tin tout, by decide, by decide, fun h => ?_⟩
  unfold calculateTotalHours
  rw [Int.fdiv_eq_ediv _ (by norm_num)]
  omega

theorem calculateTotalHours_spec_witness :
    diffMinutes ⟨17, 0, 0⟩ ⟨9, 0, 0⟩ < 0 ∧
    calculateTotalHours ⟨17, 0, 0⟩ ⟨9, 0, 0⟩ < 0 :=
  ⟨by decide, (calculateTotalHours_spec ⟨17, 0, 0⟩ ⟨9, 0, 0⟩).2.2.2 (by decide)⟩

/-- C3: the checkout reconciliation overrides any status to `"half-day"`
whenever the worked hours are `< 4` (400 hundredths) and keeps the stored
status unchanged whenever they are `≥ 4`; `("late", 3.5) ↦ "half-day"`,
`("present", 8.0) ↦ "present"`, and a `"late"` status is never turned into
`"present"` at checkout. -/
theorem reconcileStatus_spec (s : String) (hundredths : Int) :
    (hundredths < 400 → reconcileStatus s hundredths = "half-day") ∧
    (400 ≤ hundredths → reconcileStatus s hundredths = s) ∧
    reconcileStatus "late" 350 = "half-day" ∧
    reconcileStatus "present" 800 = "present" ∧
    (∀ c : Int, reconcileStatus "late" c ≠ "present") := by
  refine ⟨fun h => by simp [reconcileStatus, h], fun h => ?_, by decide, by decide,
    fun c => ?_⟩
  · simp [reconcileStatus, not_lt.mpr h]
  · unfold reconcileStatus
    split <;> decide

theorem reconcileStatus_spec_witness :
    reconcileStatus "present" 399 = "half-day" ∧
    reconcileStatus "late" 400 = "late" :=
  ⟨(reconcileStatus_spec "present" 399).1 (by decide),
   (reconcileStatus_spec "late" 400).2.1 (by decide)⟩

/-! ### Data model (`shared/schema` shapes as used by `server/storage.ts`) -/

/-- A user-directory entry. -/
structure User where
  id : String
  name : String
  email : String
  password : String
  role : String
  employeeId : String
  department : String
deriving DecidableEq

/-- A user profile with the credential field removed. -/
structure UserWithoutPassword where
  id : String
  name : String
  email : String
  role : String
  employeeId : String
  department : String
deriving DecidableEq

/-- `removePassword` from `server/storage.ts`: destructure away `password`,
keep the rest. -/
def removePassword (u : User) : UserWithoutPassword :=
  ⟨u.id, u.name, u.email, u.role, u.employeeId, u.department⟩

/-- An attendance record.  `totalHours` (a `toFixed(2)` string in the code)
is carried as an integer count of hundredths of an hour. -/
structure Attendance where
  id : String
  userId : String
  date : String
  checkInTime : Option Time
  checkOutTime : Option Time
  status : String
  totalHours : Option Int
deriving DecidableEq

/-- An attendance record joined with its owning user's public profile
(`AttendanceWithUser`; `user` is `undefined` when the lookup fails). -/
structure AttendanceWithUser where
  record : Attendance
  user : Option UserWithoutPassword
deriving DecidableEq

/-! ### The in-memory store (`MemStorage`, `server/storage.ts`)

`MemStorage.attendance` is a `Map<string, Attendance>` keyed by record id;
we model it as the list of its values in insertion order (JavaScript `Map`
iteration order).  `Map.set` replaces in place when the key exists and
appends otherwise. -/

/-- `Map.set` on the value list: replace the entry with the same id if one
exists, otherwise append. -/
def mapSet (att : List Attendance) (record : Attendance) : List Attendance :=
  if att.any (fun r => r.id == record.id) then
    att.map (fun r => if r.id == record.id then record else r)
  else
    att ++ [record]

/-- `MemStorage.getAttendanceByUserAndDate`: first record matching both
`userId` and `date` in iteration order. -/
def getAttendanceByUserAndDate (att : List Attendance) (userId date : String) :
    Option Attendance :=
  att.find? (fun r => r.userId == userId && r.date == date)

/-- `MemStorage.updateAttendance(id, updates)`: fetch by id and `Map.set`
the merged record back; on the value list this rewrites every entry whose
id matches (there is at most one, ids being map keys). -/
def updateAttendance (att : List Attendance) (id : String)
    (f : Attendance → Attendance) : List Attendance :=
  att.map (fun r => if r.id == id then f r else r)

inductive CheckInError where
  | alreadyCheckedIn
deriving DecidableEq

inductive CheckOutError where
  | notCheckedIn
  | alreadyCheckedOut
deriving DecidableEq

/-- `POST /api/attendance/checkin` (`server/routes.ts`): reject when a
record for today already has a check-in time; otherwise fill in an existing
check-in-less record, or create a fresh one (with id `newId`, standing for
the `randomUUID()` the storage layer generates), in both cases with the
status computed by `calculateStatus`. -/
def checkin (att : List Attendance) (userId date : String) (t : Time)
    (newId : String) : Except CheckInError (List Attendance × Attendance) :=
  match getAttendanceByUserAndDate att userId date with
  | some existing =>
    if existing.checkInTime.isSome then
      Except.error CheckInError.alreadyCheckedIn
    else
      let updated : Attendance :=
        { existing with checkInTime := some t, status := calculateStatus t }
      Except.ok
        (updateAttendance att existing.id
          (fun r => { r with checkInTime := some t, status := calculateStatus t }),
         updated)
  | none =>
    let record : Attendance :=
      { id := newId, userId := userId, date := date, checkInTime := some t,
        checkOutTime := none, status := calculateStatus t, totalHours := none }
    Except.ok (mapSet att record, record)

/-- `POST /api/attendance/checkout` (`server/routes.ts`): reject when no
record exists or it lacks a check-in time (`NotCheckedIn`), or when its
checkout time is already set (`AlreadyCheckedOut`); otherwise write the
checkout time, the `calculateTotalHours` duration and the reconciled
status. -/
def checkout (att : List Attendance) (userId date : String) (t : Time) :
    Except CheckOutError (List Attendance × Attendance) :=
  match getAttendanceByUserAndDate att userId date with
  | none => Except.error CheckOutError.notCheckedIn
  | some existing =>
    match existing.checkInTime with
    | none => Except.error CheckOutError.notCheckedIn
    | some tin =>
      if existing.checkOutTime.isSome then
        Except.error CheckOutError.alreadyCheckedOut
      else
        let cents := calculateTotalHours tin t
        let newStatus := reconcileStatus existing.status cents
        let updated : Attendance :=
          { existing with
            checkOutTime := some t, totalHours := some cents,
            status := newStatus }
        Except.ok
          (updateAttendance att existing.id
            (fun r =>
              { r with
                checkOutTime := some t, totalHours := some cents,
                status := newStatus }),
           updated)

/-- A client-visible mutation of the attendance store. -/
inductive Op where
  | checkinOp (userId date : String) (t : Time) (newId : String)
  | checkoutOp (userId date : String) (t : Time)
deriving DecidableEq

/-- The store state after an operation: the new store on success, the
untouched store when the request was rejected. -/
def applyOp (att : List Attendance) : Op → List Attendance
  | Op.checkinOp u d t newId =>
    match checkin att u d t newId with
    | Except.ok (st, _) => st
    | Except.error _ => att
  | Op.checkoutOp u d t =>
    match checkout att u d t with
    | Except.ok (st, _) => st
    | Except.error _ => att

/-- The store state after a sequence of operations. -/
def applyOps (att : List Attendance) (ops : List Op) : List Attendance :=
  ops.foldl applyOp att

/-! ### Store invariants -/

/-- Record ids are pairwise distinct (they are the keys of the backing
`Map`). -/
def UniqueIds (att : List Attendance) : Prop :=
  att.Pairwise (fun a b => a.id ≠ b.id)

/-- At most one record per `(userId, date)`. -/
def UniqueKeys (att : List Attendance) : Prop :=
  att.Pairwise (fun a b => ¬(a.userId = b.userId ∧ a.date = b.date))

/-- Every record with a checkout time also has a check-in time. -/
def OutImpliesIn (att : List Attendance) : Prop :=
  ∀ r ∈ att, r.checkOutTime.isSome → r.checkInTime.isSome

instance : DecidablePred UniqueIds := fun att =>
  inferInstanceAs (Decidable (att.Pairwise _))

instance : DecidablePred UniqueKeys := fun att =>
  inferInstanceAs (Decidable (att.Pairwise _))

instance : DecidablePred OutImpliesIn := fun att =>
  inferInstanceAs (Decidable (∀ r ∈ att, _ → _))

/-! ### Characterisation of the point lookup under the key invariant -/

theorem eq_of_uniqueIds {att : List Attendance} {a b : Attendance}
    (h : UniqueIds att) (ha : a ∈ att) (hb : b ∈ att) (hid : a.id = b.id) :
    a = b := by
  by_contra hne
  exact (h.forall (fun x y hxy => (hxy <| ·.symm)) ha hb hne) hid

theorem eq_of_uniqueKeys {att : List Attendance} {a b : Attendance}
    (h : UniqueKeys att) (ha : a ∈ att) (hb : b ∈ att)
    (huid : a.userId = b.userId) (hdate : a.date = b.date) : a = b := by
  by_contra hne
  have hsymm : Symmetric fun a b : Attendance =>
      ¬(a.userId = b.userId ∧ a.date = b.date) := by
    intro x y hxy hk
    exact hxy ⟨hk.1.symm, hk.2.symm⟩
  exact (h.forall hsymm ha hb hne) ⟨huid, hdate⟩

theorem getAttendanceByUserAndDate_eq_none {att : List Attendance}
    {u d : String} :
    getAttendanceByUserAndDate att u d = none ↔
      ∀ r ∈ att, ¬(r.userId = u ∧ r.date = d) := by
  simp [getAttendanceByUserAndDate, List.find?_eq_none]

theorem getAttendanceByUserAndDate_eq_some {att : List Attendance}
    {u d : String} {r : Attendance}
    (h : getAttendanceByUserAndDate att u d = some r) :
    r ∈ att ∧ r.userId = u ∧ r.date = d := by
  have hmem := List.mem_of_find?_eq_some h
  have hp := List.find?_some h
  simp only [Bool.and_eq_true, beq_iff_eq] at hp
  exact ⟨hmem, hp.1, hp.2⟩

/-- Under key uniqueness, the point lookup finds exactly the record with the
given key. -/
theorem getAttendanceByUserAndDate_eq_some_of_mem {att : List Attendance}
    {u d : String} {r : Attendance} (huniq : UniqueKeys att) (hr : r ∈ att)
    (huid : r.userId = u) (hdate : r.date = d) :
    getAttendanceByUserAndDate att u d = some r := by
  have hsome : (getAttendanceByUserAndDate att u d).isSome := by
    rw [getAttendanceByUserAndDate, List.find?_isSome]
    exact ⟨r, hr, by simp [huid, hdate]⟩
  obtain ⟨r', hr'⟩ := Option.isSome_iff_exists.mp hsome
  obtain ⟨hmem', huid', hdate'⟩ := getAttendanceByUserAndDate_eq_some hr'
  rwa [eq_of_uniqueKeys huniq hmem' hr (huid'.trans huid.symm)
    (hdate'.trans hdate.symm)] at hr'

/-! ### Error characterisations of check-in / check-out -/

theorem checkin_error_iff {att : List Attendance} {u d : String} {t : Time}
    {newId : String} (huniq : UniqueKeys att) :
    checkin att u d t newId = Except.error CheckInError.alreadyCheckedIn ↔
      ∃ r ∈ att, r.userId = u ∧ r.date = d ∧ r.checkInTime.isSome := by
  constructor
  · intro h
    cases hfind : getAttendanceByUserAndDate att u d with
    | none => simp [checkin, hfind] at h
    | some ex =>
      obtain ⟨hmem, huid, hdate⟩ := getAttendanceByUserAndDate_eq_some hfind
      by_cases hin : ex.checkInTime.isSome
      · exact ⟨ex, hmem, huid, hdate, hin⟩
      · simp [checkin, hfind, hin] at h
  · rintro ⟨r, hr, huid, hdate, hin⟩
    have hfind := getAttendanceByUserAndDate_eq_some_of_mem huniq hr huid hdate
    simp [checkin, hfind, hin]

theorem checkin_ok {att : List Attendance} {u d : String} {t : Time}
    {newId : String} {st : List Attendance} {out : Attendance}
    (h : checkin att u d t newId = Except.ok (st, out)) :
    out.userId = u ∧ out.date = d ∧ out.checkInTime = some t ∧
      out.status = calculateStatus t ∧ out ∈ st := by
  cases hfind : getAttendanceByUserAndDate att u d with
  | some ex =>
    obtain ⟨hmem, huid, hdate⟩ := getAttendanceByUserAndDate_eq_some hfind
    by_cases hin : ex.checkInTime.isSome
    · simp [checkin, hfind, hin] at h
    · simp only [checkin, hfind, hin, Bool.false_eq_true, if_false,
        Except.ok.injEq, Prod.mk.injEq] at h
      obtain ⟨hst, hout⟩ := h
      subst hst hout
      refine ⟨huid, hdate, rfl, rfl, ?_⟩
      rw [updateAttendance]
      exact List.mem_map.mpr ⟨ex, hmem, by simp⟩
  | none =>
    simp only [checkin, hfind, Except.ok.injEq, Prod.mk.injEq] at h
    obtain ⟨hst, hout⟩ := h
    subst hst hout
    refine ⟨rfl, rfl, rfl, rfl, ?_⟩
    rw [mapSet]
    split
    · next hany =>
      obtain ⟨r, hr, hid⟩ := List.any_eq_true.mp hany
      refine List.mem_map.mpr ⟨r, hr, ?_⟩
      simp only [beq_iff_eq] at hid ⊢
      simp [hid]
    · exact List.mem_append_right _ (List.mem_singleton.mpr rfl)

theorem checkout_notCheckedIn_iff {att : List Attendance} {u d : String}
    {t : Time} (huniq : UniqueKeys att) :
    checkout att u d t = Except.error CheckOutError.notCheckedIn ↔
      ¬ ∃ r ∈ att, r.userId = u ∧ r.date = d ∧ r.checkInTime.isSome := by
  constructor
  · intro h
    rintro ⟨r, hr, huid, hdate, hin⟩
    have hfind := getAttendanceByUserAndDate_eq_some_of_mem huniq hr huid hdate
    obtain ⟨tin, htin⟩ := Option.isSome_iff_exists.mp hin
    by_cases hout : r.checkOutTime.isSome <;>
      simp [checkout, hfind, htin, hout] at h
  · intro h
    cases hfind : getAttendanceByUserAndDate att u d with
    | none => simp [checkout, hfind]
    | some ex =>
      obtain ⟨hmem, huid, hdate⟩ := getAttendanceByUserAndDate_eq_some hfind
      cases htin : ex.checkInTime with
      | none => simp [checkout, hfind, htin]
      | some tin =>
        exact absurd ⟨ex, hmem, huid, hdate, by simp [htin]⟩ h

theorem checkout_alreadyOut_iff {att : List Attendance} {u d : String}
    {t : Time} (huniq : UniqueKeys att) :
    checkout att u d t = Except.error CheckOutError.alreadyCheckedOut ↔
      ∃ r ∈ att, r.userId = u ∧ r.date = d ∧ r.checkInTime.isSome ∧
        r.checkOutTime.isSome := by
  constructor
  · intro h
    cases hfind : getAttendanceByUserAndDate att u d with
    | none => simp [checkout, hfind] at h
    | some ex =>
      obtain ⟨hmem, huid, hdate⟩ := getAttendanceByUserAndDate_eq_some hfind
      cases htin : ex.checkInTime with
      | none => simp [checkout, hfind, htin] at h
      | some tin =>
        by_cases hout : ex.checkOutTime.isSome
        · exact ⟨ex, hmem, huid, hdate, by simp [htin], hout⟩
        · simp [checkout, hfind, htin, hout] at h
  · rintro ⟨r, hr, huid, hdate, hin, hout⟩
    have hfind := getAttendanceByUserAndDate_eq_some_of_mem huniq hr huid hdate
    obtain ⟨tin, htin⟩ := Option.isSome_iff_exists.mp hin
    simp [checkout, hfind, htin, hout]

theorem checkout_ok {att : List Attendance} {u d : String} {t : Time}
    {st : List Attendance} {out : Attendance}
    (h : checkout att u d t = Except.ok (st, out)) :
    ∃ r ∈ att, r.userId = u ∧ r.date = d ∧ r.checkOutTime = none ∧
      ∃ tin, r.checkInTime = some tin ∧
        out = { r with
          checkOutTime := some t,
          totalHours := some (calculateTotalHours tin t),
          status := reconcileStatus r.status (calculateTotalHours tin t) } ∧
        out ∈ st := by
  cases hfind : getAttendanceByUserAndDate att u d with
  | none => simp [checkout, hfind] at h
  | some ex =>
    obtain ⟨hmem, huid, hdate⟩ := getAttendanceByUserAndDate_eq_some hfind
    cases htin : ex.checkInTime with
    | none => simp [checkout, hfind, htin] at h
    | some tin =>
      cases hout : ex.checkOutTime with
      | some x => simp [checkout, hfind, htin, hout] at h
      | none =>
        simp only [checkout, hfind, htin, hout, Option.isSome_none,
          Bool.false_eq_true, if_false, Except.ok.injEq, Prod.mk.injEq] at h
        obtain ⟨hst, hout'⟩ := h
        subst hst hout'
        refine ⟨ex, hmem, huid, hdate, hout, tin, htin, ?_, ?_⟩
        · rw [htin]
        · rw [updateAttendance]
          exact List.mem_map.mpr ⟨ex, hmem, by simp [htin]⟩

/-! ### Concrete demonstration data (for witnesses) -/

/-- A small concrete store: `u1` checked in today (`2024-01-15`), `u2` has a
check-in-less (absent) placeholder today, and `u1` has a completed record
yesterday. -/
def demoAtt : List Attendance :=
  [{ id := "a1", userId := "u1", date := "2024-01-15",
     checkInTime := some ⟨9, 0, 0⟩, checkOutTime := none,
     status := "present", totalHours := none },
   { id := "a2", userId := "u2", date := "2024-01-15",
     checkInTime := none, checkOutTime := none,
     status := "absent", totalHours := none },
   { id := "a3", userId := "u1", date := "2024-01-14",
     checkInTime := some ⟨10, 0, 0⟩, checkOutTime := some ⟨18, 0, 0⟩,
     status := "late", totalHours := some 800 }]

/-- C4: a check-in is rejected with `AlreadyCheckedIn` exactly when a
record for the `(userId, date)` pair already has a check-in time (otherwise
it succeeds and the resulting record carries the given check-in time and
the `calculateStatus`-derived status); a check-out is rejected with
`NotCheckedIn` exactly when no record with a check-in time exists for the
pair, with `AlreadyCheckedOut` exactly when that record's checkout time is
already set, and otherwise writes the checkout time, the computed duration
and the reconciled status. -/
theorem checkin_checkout_spec (att : List Attendance) (u d : String)
    (t : Time) (newId : String) (huniq : UniqueKeys att) :
    (checkin att u d t newId = Except.error CheckInError.alreadyCheckedIn ↔
      ∃ r ∈ att, r.userId = u ∧ r.date = d ∧ r.checkInTime.isSome) ∧
    (∀ st out, checkin att u d t newId = Except.ok (st, out) →
      out.userId = u ∧ out.date = d ∧ out.checkInTime = some t ∧
        out.status = calculateStatus t ∧ out ∈ st) ∧
    (checkout att u d t = Except.error CheckOutError.notCheckedIn ↔
      ¬ ∃ r ∈ att, r.userId = u ∧ r.date = d ∧ r.checkInTime.isSome) ∧
    (checkout att u d t = Except.error CheckOutError.alreadyCheckedOut ↔
      ∃ r ∈ att, r.userId = u ∧ r.date = d ∧ r.checkInTime.isSome ∧
        r.checkOutTime.isSome) ∧
    (∀ st out, checkout att u d t = Except.ok (st, out) →
      ∃ r ∈ att, r.userId = u ∧ r.date = d ∧ r.checkOutTime = none ∧
        ∃ tin, r.checkInTime = some tin ∧
          out = { r with
            checkOutTime := some t,
            totalHours := some (calculateTotalHours tin t),
            status := reconcileStatus r.status (calculateTotalHours tin t) } ∧
          out ∈ st) :=
  ⟨checkin_error_iff huniq,
   fun _ _ h => checkin_ok h,
   checkout_notCheckedIn_iff huniq,
   checkout_alreadyOut_iff huniq,
   fun _ _ h => checkout_ok h⟩

theorem checkin_checkout_spec_witness :
    checkin demoAtt "u1" "2024-01-15" ⟨10, 0, 0⟩ "a9" =
      Except.error CheckInError.alreadyCheckedIn ∧
    checkout demoAtt "u2" "2024-01-15" ⟨17, 0, 0⟩ =
      Except.error CheckOutError.notCheckedIn ∧
    checkout demoAtt "u1" "2024-01-14" ⟨19, 0, 0⟩ =
      Except.error CheckOutError.alreadyCheckedOut :=
  ⟨(checkin_checkout_spec demoAtt "u1" "2024-01-15" ⟨10, 0, 0⟩ "a9"
      (by decide)).1.mpr (by decide),
   (checkin_checkout_spec demoAtt "u2" "2024-01-15" ⟨17, 0, 0⟩ "x"
      (by decide)).2.2.1.mpr (by decide),
   (checkin_checkout_spec demoAtt "u1" "2024-01-14" ⟨19, 0, 0⟩ "x"
      (by decide)).2.2.2.1.mpr (by decide)⟩

/-- C10: a rejected check-in (`AlreadyCheckedIn`) and a rejected check-out
(`NotCheckedIn` or `AlreadyCheckedOut`) leave the store completely
unchanged: the failing guard precedes every write. -/
theorem rejected_requests_leave_store_unchanged (att : List Attendance)
    (u d : String) (t : Time) (newId : String) (huniq : UniqueKeys att) :
    ((∃ r ∈ att, r.userId = u ∧ r.date = d ∧ r.checkInTime.isSome) →
      applyOp att (Op.checkinOp u d t newId) = att) ∧
    ((¬ ∃ r ∈ att, r.userId = u ∧ r.date = d ∧ r.checkInTime.isSome) →
      applyOp att (Op.checkoutOp u d t) = att) ∧
    ((∃ r ∈ att, r.userId = u ∧ r.date = d ∧ r.checkInTime.isSome ∧
        r.checkOutTime.isSome) →
      applyOp att (Op.checkoutOp u d t) = att) := by
  refine ⟨fun h => ?_, fun h => ?_, fun h => ?_⟩
  · have he := (@checkin_error_iff att u d t newId huniq).mpr h
    simp [applyOp, he]
  · have he := (@checkout_notCheckedIn_iff att u d t huniq).mpr h
    simp [applyOp, he]
  · have he := (@checkout_alreadyOut_iff att u d t huniq).mpr
      (by obtain ⟨r, hr, h1, h2, h3, h4⟩ := h; exact ⟨r, hr, h1, h2, h3, h4⟩)
    simp [applyOp, he]

theorem rejected_requests_leave_store_unchanged_witness :
    applyOp demoAtt (Op.checkinOp "u1" "2024-01-15" ⟨10, 0, 0⟩ "a9") =
      demoAtt ∧
    applyOp demoAtt (Op.checkoutOp "u2" "2024-01-15" ⟨17, 0, 0⟩) = demoAtt ∧
    applyOp demoAtt (Op.checkoutOp "u1" "2024-01-14" ⟨19, 0, 0⟩) = demoAtt :=
  ⟨(rejected_requests_leave_store_unchanged demoAtt "u1" "2024-01-15"
      ⟨10, 0, 0⟩ "a9" (by decide)).1 (by decide),
   (rejected_requests_leave_store_unchanged demoAtt "u2" "2024-01-15"
      ⟨17, 0, 0⟩ "x" (by decide)).2.1 (by decide),
   (rejected_requests_leave_store_unchanged demoAtt "u1" "2024-01-14"
      ⟨19, 0, 0⟩ "x" (by decide)).2.2 (by decide)⟩

/-! ### Preservation of the store invariants (C5) -/

theorem uniqueIds_map {att : List Attendance} {g : Attendance → Attendance}
    (hg : ∀ r, (g r).id = r.id) (h : UniqueIds att) :
    UniqueIds (att.map g) :=
  List.pairwise_map.mpr (h.imp (fun hab => by simpa [hg] using hab))

theorem uniqueKeys_map {att : List Attendance} {g : Attendance → Attendance}
    (hg : ∀ r, (g r).userId = r.userId ∧ (g r).date = r.date)
    (h : UniqueKeys att) : UniqueKeys (att.map g) :=
  List.pairwise_map.mpr (h.imp (fun hab => by
    simpa [(hg _).1, (hg _).2] using hab))

/-- The per-id rewrite of `updateAttendance` preserves ids. -/
theorem updateAttendance_id (id : String) (f : Attendance → Attendance)
    (hf : ∀ r, (f r).id = r.id) (r : Attendance) :
    ((fun r' => if r'.id == id then f r' else r') r).id = r.id := by
  by_cases h : (r.id == id) = true <;> simp [h, hf]

theorem uniqueIds_updateAttendance {att : List Attendance} {id : String}
    {f : Attendance → Attendance} (hf : ∀ r, (f r).id = r.id)
    (h : UniqueIds att) : UniqueIds (updateAttendance att id f) :=
  uniqueIds_map (updateAttendance_id id f hf) h

theorem uniqueKeys_updateAttendance {att : List Attendance} {id : String}
    {f : Attendance → Attendance}
    (hf : ∀ r, (f r).userId = r.userId ∧ (f r).date = r.date)
    (h : UniqueKeys att) : UniqueKeys (updateAttendance att id f) := by
  refine uniqueKeys_map (fun r => ?_) h
  by_cases hr : (r.id == id) = true <;> simp [hr, hf]

theorem mem_updateAttendance {att : List Attendance} {id : String}
    {f : Attendance → Attendance} {r' : Attendance}
    (h : r' ∈ updateAttendance att id f) :
    ∃ r ∈ att, r' = if r.id == id then f r else r := by
  obtain ⟨r, hr, hr'⟩ := List.mem_map.mp h
  exact ⟨r, hr, hr'.symm⟩

theorem uniqueIds_mapSet {att : List Attendance} {record : Attendance}
    (h : UniqueIds att) : UniqueIds (mapSet att record) := by
  rw [mapSet]
  split
  · refine uniqueIds_map (fun r => ?_) h
    by_cases hr : (r.id == record.id) = true
    · simp only [hr, if_true]
      exact (beq_iff_eq.mp hr).symm
    · simp [hr]
  · next hany =>
    rw [UniqueIds, List.pairwise_append]
    refine ⟨h, List.pairwise_singleton _ _, fun a ha b hb => ?_⟩
    rw [List.mem_singleton] at hb
    subst hb
    intro hid
    have : att.any (fun r => r.id == b.id) = true :=
      List.any_eq_true.mpr ⟨a, ha, by simp [hid]⟩
    simp [this] at hany

theorem uniqueKeys_mapSet {att : List Attendance} {record : Attendance}
    (hids : UniqueIds att)
    (hfresh : ∀ r ∈ att, ¬(r.userId = record.userId ∧ r.date = record.date))
    (h : UniqueKeys att) : UniqueKeys (mapSet att record) := by
  rw [mapSet]
  split
  · refine List.pairwise_map.mpr ((h.and hids).imp_of_mem ?_)
    intro a b ha hb hab
    dsimp only
    by_cases haid : a.id == record.id <;> by_cases hbid : b.id == record.id
    · exfalso
      simp only [beq_iff_eq] at haid hbid
      exact hab.2 (haid.trans hbid.symm)
    · simp only [haid, hbid, if_true, if_false]
      intro hk
      exact hfresh b hb ⟨hk.1.symm, hk.2.symm⟩
    · simp only [haid, hbid, if_true, if_false]
      intro hk
      exact hfresh a ha hk
    · simpa [haid, hbid] using hab.1
  · rw [UniqueKeys, List.pairwise_append]
    exact ⟨h, List.pairwise_singleton _ _, fun a ha b hb => by
      rw [List.mem_singleton] at hb
      subst hb
      exact hfresh a ha⟩

theorem outImpliesIn_mapSet {att : List Attendance} {record : Attendance}
    (hrec : record.checkOutTime.isSome → record.checkInTime.isSome)
    (h : OutImpliesIn att) : OutImpliesIn (mapSet att record) := by
  rw [mapSet]
  split
  · intro r' hr' hout
    obtain ⟨r, hr, hr'eq⟩ := List.mem_map.mp hr'
    subst hr'eq
    by_cases hid : (r.id == record.id) = true
    · simp only [hid, if_true] at hout ⊢
      exact hrec hout
    · simp only [hid, Bool.false_eq_true, if_false] at hout ⊢
      exact h r hr hout
  · intro r' hr' hout
    rcases List.mem_append.mp hr' with hmem | hmem
    · exact h r' hmem hout
    · rw [List.mem_singleton] at hmem
      subst hmem
      exact hrec hout

/-- One client operation preserves the three store invariants. -/
theorem applyOp_preserves_invariants {att : List Attendance} (op : Op)
    (hids : UniqueIds att) (hkeys : UniqueKeys att) (hout : OutImpliesIn att) :
    UniqueIds (applyOp att op) ∧ UniqueKeys (applyOp att op) ∧
      OutImpliesIn (applyOp att op) := by
  cases op with
  | checkinOp u d t newId =>
    rw [applyOp]
    cases hc : checkin att u d t newId with
    | error e => exact ⟨hids, hkeys, hout⟩
    | ok p =>
      obtain ⟨st, out⟩ := p
      cases hfind : getAttendanceByUserAndDate att u d with
      | some ex =>
        by_cases hin : ex.checkInTime.isSome
        · simp [checkin, hfind, hin] at hc
        · simp only [checkin, hfind, hin, Bool.false_eq_true, if_false,
            Except.ok.injEq, Prod.mk.injEq] at hc
          obtain ⟨hst, -⟩ := hc
          subst hst
          refine ⟨uniqueIds_updateAttendance (by intro r; rfl) hids,
            uniqueKeys_updateAttendance (by intro r; exact ⟨rfl, rfl⟩) hkeys,
            ?_⟩
          intro r' hr' hro
          obtain ⟨r, hr, hr'eq⟩ := mem_updateAttendance hr'
          subst hr'eq
          by_cases hrid : (r.id == ex.id) = true
          · simp [hrid]
          · simp only [hrid, Bool.false_eq_true, if_false] at hro ⊢
            exact hout r hr hro
      | none =>
        simp only [checkin, hfind, Except.ok.injEq, Prod.mk.injEq] at hc
        obtain ⟨hst, -⟩ := hc
        subst hst
        have hfresh := getAttendanceByUserAndDate_eq_none.mp hfind
        exact ⟨uniqueIds_mapSet hids,
          uniqueKeys_mapSet hids (by simpa using hfresh) hkeys,
          outImpliesIn_mapSet (by simp) hout⟩
  | checkoutOp u d t =>
    rw [applyOp]
    cases hc : checkout att u d t with
    | error e => exact ⟨hids, hkeys, hout⟩
    | ok p =>
      obtain ⟨st, out⟩ := p
      cases hfind : getAttendanceByUserAndDate att u d with
      | none => simp [checkout, hfind] at hc
      | some ex =>
        obtain ⟨hmem, -, -⟩ := getAttendanceByUserAndDate_eq_some hfind
        cases htin : ex.checkInTime with
        | none => simp [checkout, hfind, htin] at hc
        | some tin =>
          cases hoex : ex.checkOutTime with
          | some x => simp [checkout, hfind, htin, hoex] at hc
          | none =>
            simp only [checkout, hfind, htin, hoex, Option.isSome_none,
              Bool.false_eq_true, if_false, Except.ok.injEq,
              Prod.mk.injEq] at hc
            obtain ⟨hst, -⟩ := hc
            subst hst
            refine ⟨uniqueIds_updateAttendance (by intro r; rfl) hids,
              uniqueKeys_updateAttendance (by intro r; exact ⟨rfl, rfl⟩) hkeys,
              ?_⟩
            intro r' hr' hro
            obtain ⟨r, hr, hr'eq⟩ := mem_updateAttendance hr'
            subst hr'eq
            by_cases hrid : (r.id == ex.id) = true
            · have : r = ex := eq_of_uniqueIds hids hr hmem (beq_iff_eq.mp hrid)
              subst this
              simp [hrid, htin]
            · simp only [hrid, Bool.false_eq_true, if_false] at hro ⊢
              exact hout r hr hro

/-- C5: starting from any store satisfying (unique map keys and) the two
record invariants — at most one record per `(userId, date)`, and checkout
set implies check-in set — every store reachable by a sequence of check-in
and check-out operations still satisfies them. -/
theorem store_invariants_preserved (att : List Attendance) (ops : List Op)
    (hids : UniqueIds att)
    (hinv : UniqueKeys att ∧ OutImpliesIn att) :
    UniqueKeys (applyOps att ops) ∧ OutImpliesIn (applyOps att ops) := by
  suffices h : ∀ (ops : List Op) (att : List Attendance), UniqueIds att →
      UniqueKeys att → OutImpliesIn att →
      UniqueIds (applyOps att ops) ∧ UniqueKeys (applyOps att ops) ∧
        OutImpliesIn (applyOps att ops) by
    exact ⟨(h ops att hids hinv.1 hinv.2).2.1, (h ops att hids hinv.1 hinv.2).2.2⟩
  intro ops
  induction ops with
  | nil => exact fun att h1 h2 h3 => ⟨h1, h2, h3⟩
  | cons op ops ih =>
    intro att h1 h2 h3
    obtain ⟨g1, g2, g3⟩ := applyOp_preserves_invariants op h1 h2 h3
    simpa [applyOps] using ih (applyOp att op) g1 g2 g3

/-! ### Range queries, joins and the report route -/

/-- The descending-by-date comparison used by
`.sort((a, b) => b.date.localeCompare(a.date))`. -/
def dateDesc (a b : Attendance) : Prop := strLe b.date a.date = true

instance : DecidableRel dateDesc := fun a b =>
  inferInstanceAs (Decidable (_ = true))

/-- `MemStorage.getUserAttendanceHistory`: the user's records with
`startDate <= date <= endDate` (JavaScript string comparison), sorted
descending by date.  JavaScript `Array.prototype.sort` is stable, and with
the consistent comparator `b.date.localeCompare(a.date)` the stable-sorted
result is unique, so the stable `insertionSort` is a faithful model. -/
def getUserAttendanceHistory (att : List Attendance)
    (userId startDate endDate : String) : List Attendance :=
  List.insertionSort dateDesc
    (att.filter (fun r =>
      r.userId == userId && strLe startDate r.date && strLe r.date endDate))

/-- Joining one record with its owning user's public profile, as done in
`getAllAttendanceForDate` / `getAttendanceReport`: `user` is `undefined`
when the lookup fails, and the password is removed otherwise. -/
def joinUser (users : List User) (r : Attendance) : AttendanceWithUser :=
  ⟨r, (users.find? (fun u => u.id == r.userId)).map removePassword⟩

/-- `MemStorage.getAllAttendanceForDate`: all records of the given date,
each joined with its owning user's public profile. -/
def getAllAttendanceForDate (users : List User) (att : List Attendance)
    (date : String) : List AttendanceWithUser :=
  (att.filter (fun r => r.date == date)).map (joinUser users)

/-- `MemStorage.getAttendanceReport`: records in the inclusive
lexicographic date range, restricted to one user when `employeeId` is
non-empty and not the sentinel `"all"` (the JavaScript guard
`employeeId && employeeId !== "all"`), sorted descending by date and
joined with user profiles. -/
def getAttendanceReport (users : List User) (att : List Attendance)
    (startDate endDate employeeId : String) : List AttendanceWithUser :=
  let inRange :=
    att.filter (fun r => strLe startDate r.date && strLe r.date endDate)
  let records :=
    if employeeId ≠ "" ∧ employeeId ≠ "all" then
      inRange.filter (fun r => r.userId == employeeId)
    else inRange
  (List.insertionSort dateDesc records).map (joinUser users)

inductive ReportError where
  | missingDates
deriving DecidableEq

/-- `GET /api/attendance/report` (`server/routes.ts`): the only request
validation is `if (!startDate || !endDate)` — a missing (empty) start or
end date is rejected; everything else reaches `getAttendanceReport`. -/
def reportRoute (users : List User) (att : List Attendance)
    (startDate endDate employeeId : String) :
    Except ReportError (List AttendanceWithUser) :=
  if startDate = "" ∨ endDate = "" then
    Except.error ReportError.missingDates
  else
    Except.ok (getAttendanceReport users att startDate endDate employeeId)

theorem dateDesc_total : ∀ a b : Attendance, dateDesc a b ∨ dateDesc b a :=
  fun a b => strLe_total b.date a.date

theorem dateDesc_trans : ∀ a b c : Attendance,
    dateDesc a b → dateDesc b c → dateDesc a c :=
  fun _ _ _ hab hbc => strLe_trans hbc hab

/-- `insertionSort dateDesc` sorts descending by date. -/
theorem sorted_dateDesc (l : List Attendance) :
    (List.insertionSort dateDesc l).Pairwise dateDesc :=
  @List.sorted_insertionSort _ dateDesc _ ⟨dateDesc_total⟩
    ⟨dateDesc_trans⟩ l

theorem store_invariants_preserved_witness :
    UniqueKeys (applyOps demoAtt
      [Op.checkinOp "u2" "2024-01-15" ⟨13, 0, 0⟩ "a4",
       Op.checkoutOp "u1" "2024-01-15" ⟨17, 0, 0⟩,
       Op.checkinOp "u3" "2024-01-15" ⟨9, 10, 0⟩ "a5"]) ∧
    OutImpliesIn (applyOps demoAtt
      [Op.checkinOp "u2" "2024-01-15" ⟨13, 0, 0⟩ "a4",
       Op.checkoutOp "u1" "2024-01-15" ⟨17, 0, 0⟩,
       Op.checkinOp "u3" "2024-01-15" ⟨9, 10, 0⟩ "a5"]) :=
  store_invariants_preserved demoAtt
    [Op.checkinOp "u2" "2024-01-15" ⟨13, 0, 0⟩ "a4",
     Op.checkoutOp "u1" "2024-01-15" ⟨17, 0, 0⟩,
     Op.checkinOp "u3" "2024-01-15" ⟨9, 10, 0⟩ "a5"]
    (by decide) ⟨by decide, by decide⟩

/-- C7: the per-user range query returns exactly the user's records with
`startDate ≤ date ≤ endDate` (string-lexicographic, inclusive), sorted
strictly descending by date (strictness following from per-`(userId, date)`
uniqueness); the report applies the same inclusive filter over all records,
restricts to one user exactly when the employee id is non-empty and not the
sentinel `"all"`, and is sorted descending by date. -/
theorem range_queries_spec (users : List User) (att : List Attendance)
    (u s e emp : String) (huniq : UniqueKeys att) :
    (∀ r : Attendance, r ∈ getUserAttendanceHistory att u s e ↔
      r ∈ att ∧ r.userId = u ∧ strLe s r.date = true ∧
        strLe r.date e = true) ∧
    (getUserAttendanceHistory att u s e).Pairwise
      (fun a b => strLt b.date a.date = true) ∧
    (∀ x : AttendanceWithUser, x ∈ getAttendanceReport users att s e emp ↔
      ∃ r ∈ att, strLe s r.date = true ∧ strLe r.date e = true ∧
        ((emp ≠ "" ∧ emp ≠ "all") → r.userId = emp) ∧
        x = joinUser users r) ∧
    (getAttendanceReport users att s e emp).Pairwise
      (fun a b => strLe b.record.date a.record.date = true) := by
  refine ⟨fun r => ?_, ?_, fun x => ?_, ?_⟩
  · simp [getUserAttendanceHistory, List.mem_filter, and_assoc]
  · have hperm := List.perm_insertionSort dateDesc
      (att.filter (fun r =>
        r.userId == u && strLe s r.date && strLe r.date e))
    have hkeysL : (att.filter (fun r =>
        r.userId == u && strLe s r.date && strLe r.date e)).Pairwise
        (fun a b => ¬(a.userId = b.userId ∧ a.date = b.date)) :=
      List.Pairwise.sublist (List.filter_sublist att) huniq
    have hkeysSorted : (List.insertionSort dateDesc (att.filter (fun r =>
        r.userId == u && strLe s r.date && strLe r.date e))).Pairwise
        (fun a b => ¬(a.userId = b.userId ∧ a.date = b.date)) := by
      refine (hperm.pairwise_iff ?_).mpr hkeysL
      intro x y hxy hk
      exact hxy ⟨hk.1.symm, hk.2.symm⟩
    have hsorted := sorted_dateDesc
      (att.filter (fun r =>
        r.userId == u && strLe s r.date && strLe r.date e))
    refine (hsorted.and hkeysSorted).imp_of_mem ?_
    intro a b ha hb hab
    have hau : a.userId = u := by
      have h1 := List.mem_filter.mp ((List.mem_insertionSort dateDesc).mp ha)
      simp only [Bool.and_eq_true, beq_iff_eq] at h1
      exact h1.2.1.1
    have hbu : b.userId = u := by
      have h1 := List.mem_filter.mp ((List.mem_insertionSort dateDesc).mp hb)
      simp only [Bool.and_eq_true, beq_iff_eq] at h1
      exact h1.2.1.1
    rw [strLt_iff_not_le]
    intro hle
    exact hab.2 ⟨hau.trans hbu.symm, strLe_antisymm hle hab.1⟩
  · rw [getAttendanceReport]
    by_cases hemp : emp ≠ "" ∧ emp ≠ "all"
    · simp only [if_pos hemp, List.mem_map, List.mem_insertionSort,
        List.mem_filter, Bool.and_eq_true, beq_iff_eq]
      constructor
      · rintro ⟨r, ⟨⟨hr, hs, he⟩, hu'⟩, hx⟩
        exact ⟨r, hr, hs, he, fun _ => hu', hx.symm⟩
      · rintro ⟨r, hr, hs, he, hu', hx⟩
        exact ⟨r, ⟨⟨hr, hs, he⟩, hu' hemp⟩, hx.symm⟩
    · simp only [if_neg hemp, List.mem_map, List.mem_insertionSort,
        List.mem_filter, Bool.and_eq_true]
      constructor
      · rintro ⟨r, ⟨hr, hs, he⟩, hx⟩
        exact ⟨r, hr, hs, he, fun hc => (hemp hc).elim, hx.symm⟩
      · rintro ⟨r, hr, hs, he, -, hx⟩
        exact ⟨r, ⟨hr, hs, he⟩, hx.symm⟩
  · rw [getAttendanceReport]
    exact List.pairwise_map.mpr (sorted_dateDesc _)

theorem range_queries_spec_witness :
    (getUserAttendanceHistory demoAtt "u1" "2024-01-01" "2024-01-31").Pairwise
      (fun a b => strLt b.date a.date = true) :=
  (range_queries_spec [] demoAtt "u1" "2024-01-01" "2024-01-31" "all"
    (by decide)).2.1

/-- C8 counterexample: an inverted date range (startDate lexicographically
greater than endDate) is *not* rejected: on a store that does contain
records the report request with `startDate = "2024-02-01" >
"2024-01-01" = endDate` succeeds with the empty record list; no
`InvalidRange` error kind exists in the code. -/
theorem invalid_range_counterexample :
    strLt "2024-01-01" "2024-02-01" = true ∧
    demoAtt ≠ [] ∧
    reportRoute [] demoAtt "2024-02-01" "2024-01-01" "all" =
      Except.ok [] := by
  refine ⟨by decide, by decide, by rfl⟩

/-- C8 (amended): report/history queries perform no date-range validation;
the only rejected input is a missing (empty) start or end date.  A query
with an inverted range (`endDate < startDate`) succeeds and returns the
empty record list, because the inclusive lexicographic filter can match no
record. -/
theorem reportRoute_inverted_range_spec (users : List User)
    (att : List Attendance) (s e emp : String)
    (hs : s ≠ "") (he : e ≠ "") (hinv : strLt e s = true) :
    reportRoute users att s e emp = Except.ok [] ∧
    (∀ e' emp', reportRoute users att "" e' emp' =
      Except.error ReportError.missingDates) ∧
    (∀ s' emp', reportRoute users att s' "" emp' =
      Except.error ReportError.missingDates) := by
  refine ⟨?_, fun e' emp' => by simp [reportRoute],
    fun s' emp' => by simp [reportRoute]⟩
  have hfilter : att.filter (fun r => strLe s r.date && strLe r.date e) = [] := by
    rw [List.filter_eq_nil]
    intro r hr
    simp only [Bool.and_eq_true, not_and]
    intro h1 h2
    exact (strLt_iff_not_le.mp hinv) (strLe_trans h1 h2)
  rw [reportRoute, if_neg (by simp [hs, he])]
  rw [getAttendanceReport]
  simp only [hfilter]
  split <;> simp

theorem reportRoute_inverted_range_spec_witness :
    reportRoute [] demoAtt "2024-03-01" "2024-02-01" "all" = Except.ok [] :=
  (reportRoute_inverted_range_spec [] demoAtt "2024-03-01" "2024-02-01" "all"
    (by decide) (by decide) (by decide)).1

/-! ### Employee directory and manager dashboard (`server/storage.ts`) -/

/-- `MemStorage.getAllEmployees`: directory entries with role `"employee"`,
passwords removed. -/
def getAllEmployees (users : List User) : List UserWithoutPassword :=
  (users.filter (fun u => u.role == "employee")).map removePassword

/-- The fields of `getManagerDashboardStats` the claims speak about
(`weeklyTrend` and `departmentStats` are computed alongside them in the
code but are not needed here). -/
structure ManagerDashboardStats where
  totalEmployees : Nat
  presentToday : Nat
  absentToday : Int
  lateToday : Nat
  absentEmployees : List UserWithoutPassword
deriving DecidableEq

/-- `MemStorage.getManagerDashboardStats` (`server/storage.ts`): counts
over today's joined records and the employee directory; `absentToday` is
the JavaScript number `employees.length - todayAttendance.length +
#absent-records`, which can in principle go negative, hence `Int`. -/
def getManagerDashboardStats (users : List User) (att : List Attendance)
    (today : String) : ManagerDashboardStats :=
  let employees := getAllEmployees users
  let todayAttendance := getAllAttendanceForDate users att today
  { totalEmployees := employees.length
    presentToday := (todayAttendance.filter (fun r =>
      r.record.status == "present" || r.record.status == "late" ||
        r.record.status == "half-day")).length
    absentToday := (employees.length : Int) - (todayAttendance.length : Int) +
      ((todayAttendance.filter (fun r => r.record.status == "absent")).length : Int)
    lateToday := (todayAttendance.filter (fun r =>
      r.record.status == "late")).length
    absentEmployees := employees.filter (fun emp =>
      !(todayAttendance.any (fun r => r.record.userId == emp.id))) }

/-- Demo directory: five employees and one manager, each with a distinct
password. -/
def demoU1 : User :=
  { id := "u1", name := "John Smith", email := "john@company.com",
    password := "pw1", role := "employee", employeeId := "EMP001",
    department := "Engineering" }

def demoU2 : User :=
  { id := "u2", name := "Jane Doe", email := "jane@company.com",
    password := "pw2", role := "employee", employeeId := "EMP002",
    department := "Product" }

def demoU3 : User :=
  { id := "u3", name := "Bob Wilson", email := "bob@company.com",
    password := "pw3", role := "employee", employeeId := "EMP003",
    department := "Engineering" }

def demoU4 : User :=
  { id := "u4", name := "Alice Brown", email := "alice@company.com",
    password := "pw4", role := "employee", employeeId := "EMP004",
    department := "Design" }

def demoU5 : User :=
  { id := "u5", name := "Charlie Davis", email := "charlie@company.com",
    password := "pw5", role := "employee", employeeId := "EMP005",
    department := "Marketing" }

def demoU6 : User :=
  { id := "u6", name := "Sarah Manager", email := "manager@company.com",
    password := "pw6", role := "manager", employeeId := "EMP006",
    department := "Management" }

def demoUsers : List User := [demoU1, demoU2, demoU3, demoU4, demoU5, demoU6]

/-- Demo day for the dashboard: of the five employees, three have records
on `2024-01-15` (two `present`, one explicit `absent`) and two have none. -/
def demoAttStats : List Attendance :=
  [{ id := "s1", userId := "u1", date := "2024-01-15",
     checkInTime := some ⟨9, 0, 0⟩, checkOutTime := none,
     status := "present", totalHours := none },
   { id := "s2", userId := "u2", date := "2024-01-15",
     checkInTime := some ⟨9, 5, 0⟩, checkOutTime := none,
     status := "present", totalHours := none },
   { id := "s3", userId := "u3", date := "2024-01-15",
     checkInTime := none, checkOutTime := none,
     status := "absent", totalHours := none }]

/-- C6: for every store state and day, `totalEmployees` is the number of
role-`employee` directory entries; `presentToday` counts the day's records
with status in `{present, late, half-day}`; `absentToday` equals
`totalEmployees − #records-today + #absent-records-today`; `lateToday`
counts the day's `late` records; `absentEmployees` is exactly the set of
employees with no record that day; and on the concrete 5-employee demo day
(2 present, 1 absent, 2 without records) the stats are `presentToday = 2`,
`absentToday = 3` and `absentEmployees` the two record-less employees. -/
theorem managerDashboard_spec (users : List User) (att : List Attendance)
    (today : String) :
    (getManagerDashboardStats users att today).totalEmployees =
      (users.filter (fun u => u.role == "employee")).length ∧
    (getManagerDashboardStats users att today).presentToday =
      ((att.filter (fun r => r.date == today)).filter (fun r =>
        r.status == "present" || r.status == "late" ||
          r.status == "half-day")).length ∧
    (getManagerDashboardStats users att today).absentToday =
      ((users.filter (fun u => u.role == "employee")).length : Int) -
        ((att.filter (fun r => r.date == today)).length : Int) +
        (((att.filter (fun r => r.date == today)).filter (fun r =>
          r.status == "absent")).length : Int) ∧
    (getManagerDashboardStats users att today).lateToday =
      ((att.filter (fun r => r.date == today)).filter (fun r =>
        r.status == "late")).length ∧
    (∀ x : UserWithoutPassword,
      x ∈ (getManagerDashboardStats users att today).absentEmployees ↔
        (∃ usr ∈ users, usr.role = "employee" ∧ removePassword usr = x) ∧
        ¬ ∃ r ∈ att, r.date = today ∧ r.userId = x.id) ∧
    getManagerDashboardStats demoUsers demoAttStats "2024-01-15" =
      { totalEmployees := 5, presentToday := 2, absentToday := 3,
        lateToday := 0,
        absentEmployees := [removePassword demoU4, removePassword demoU5] } := by
  refine ⟨?_, ?_, ?_, ?_, fun x => ?_, by decide⟩
  · simp [getManagerDashboardStats, getAllEmployees]
  · simp [getManagerDashboardStats, getAllAttendanceForDate,
      List.filter_map, Function.comp, joinUser]
  · simp [getManagerDashboardStats, getAllEmployees, getAllAttendanceForDate,
      List.filter_map, Function.comp, joinUser]
  · simp [getManagerDashboardStats, getAllAttendanceForDate,
      List.filter_map, Function.comp, joinUser]
  · simp only [getManagerDashboardStats, getAllEmployees,
      getAllAttendanceForDate, List.mem_filter, List.mem_map,
      Bool.not_eq_true', Bool.and_eq_true, beq_iff_eq]
    constructor
    · rintro ⟨⟨usr, husr, hx⟩, hany⟩
      refine ⟨⟨usr, husr.1, husr.2, hx⟩, ?_⟩
      rintro ⟨r, hr, hdate, huid⟩
      have htrue : ((List.map (joinUser users)
          (att.filter (fun r => r.date == today))).any
          (fun rr => rr.record.userId == x.id)) = true :=
        List.any_eq_true.mpr ⟨joinUser users r,
          List.mem_map_of_mem _ (List.mem_filter.mpr ⟨hr, by simp [hdate]⟩),
          by simp [joinUser, huid]⟩
      rw [htrue] at hany
      exact absurd hany (by simp)
    · rintro ⟨⟨usr, husr, hrole, hx⟩, hnone⟩
      refine ⟨⟨usr, ⟨husr, hrole⟩, hx⟩, ?_⟩
      rw [List.any_eq_false]
      rintro rr hrr
      obtain ⟨r, hrmem, hrr'⟩ := List.mem_map.mp hrr
      subst hrr'
      rw [List.mem_filter] at hrmem
      simp only [joinUser, beq_iff_eq]
      intro huid
      exact hnone ⟨r, hrmem.1, by simpa using hrmem.2, huid⟩

/-! ### Join totality and password independence (C9) -/

/-- Rewriting every password leaves the public-profile lookup unchanged. -/
theorem find?_removePassword_map (users : List User) (f : User → String)
    (uid : String) :
    ((users.map (fun usr => { usr with password := f usr })).find?
        (fun usr => usr.id == uid)).map removePassword =
      (users.find? (fun usr => usr.id == uid)).map removePassword := by
  induction users with
  | nil => rfl
  | cons a as ih =>
    by_cases h : (a.id == uid) = true
    · simp [List.find?_cons, h, removePassword]
    · simp only [List.map_cons, List.find?_cons, h]
      simpa [h] using ih

theorem joinUser_password_invariant (users : List User) (f : User → String)
    (r : Attendance) :
    joinUser (users.map (fun usr => { usr with password := f usr })) r =
      joinUser users r := by
  simp only [joinUser, AttendanceWithUser.mk.injEq, true_and]
  exact find?_removePassword_map users f r.userId

/-- C9: the joined views return one entry per matching record even when
the user lookup fails (the `user` field is then `undefined` rather than the
record being dropped), and they expose only password-free profiles:
rewriting every stored password arbitrarily leaves both joined outputs
identical. -/
theorem join_privacy_spec (users : List User) (att : List Attendance)
    (d s e emp : String) (f : User → String) :
    (getAllAttendanceForDate users att d).length =
      (att.filter (fun r => r.date == d)).length ∧
    (getAttendanceReport users att s e emp).length =
      (if emp ≠ "" ∧ emp ≠ "all" then
        ((att.filter (fun r => strLe s r.date && strLe r.date e)).filter
          (fun r => r.userId == emp))
      else att.filter (fun r => strLe s r.date && strLe r.date e)).length ∧
    (∀ x ∈ getAllAttendanceForDate users att d,
      (∀ usr ∈ users, usr.id ≠ x.record.userId) → x.user = none) ∧
    getAllAttendanceForDate (users.map (fun usr =>
        { usr with password := f usr })) att d =
      getAllAttendanceForDate users att d ∧
    getAttendanceReport (users.map (fun usr =>
        { usr with password := f usr })) att s e emp =
      getAttendanceReport users att s e emp := by
  refine ⟨?_, ?_, fun x hx hnone => ?_, ?_, ?_⟩
  · simp [getAllAttendanceForDate]
  · rw [getAttendanceReport]
    simp only [List.length_map]
    exact (List.perm_insertionSort dateDesc _).length_eq
  · obtain ⟨r, hrmem, hx'⟩ := List.mem_map.mp hx
    subst hx'
    have hfind : users.find? (fun u => u.id == r.userId) = none := by
      rw [List.find?_eq_none]
      intro usr husr
      simpa using hnone usr husr
    simp [joinUser, hfind]
  · rw [getAllAttendanceForDate, getAllAttendanceForDate]
    exact List.map_congr_left (fun r _ => joinUser_password_invariant users f r)
  · rw [getAttendanceReport, getAttendanceReport]
    exact List.map_congr_left (fun r _ => joinUser_password_invariant users f r)

theorem join_privacy_spec_witness :
    (joinUser []
      { id := "a1", userId := "u1", date := "2024-01-15",
        checkInTime := some ⟨9, 0, 0⟩, checkOutTime := none,
        status := "present", totalHours := none }).user = none :=
  (join_privacy_spec [] demoAtt "2024-01-15" "a" "b" "c"
    (fun _ => "q")).2.2.1
    (joinUser []
      { id := "a1", userId := "u1", date := "2024-01-15",
        checkInTime := some ⟨9, 0, 0⟩, checkOutTime := none,
        status := "present", totalHours := none })
    (by decide) (by decide)

end EAS
